import Mathlib

/-
  Verification development for the individual_subscriptions_usage utility
  (src/main.py).  The Python code is shallowly embedded: Python dicts become
  association lists with dict semantics (a later assignment to an existing key
  replaces the value in place, a new key is appended at the end, matching
  insertion order), defaultdict access materialises a default value, and the
  fallible parts (row field extraction, report parsing) return Option/Except.
-/

namespace IndivSubs

/-- Model of datetime.date: a plain (year, month, day) triple. -/
structure Date where
  year : Nat
  month : Nat
  day : Nat
deriving DecidableEq, Repr

/-- Association list standing for a Python dict (insertion ordered, unique
keys maintained by alistInsert). -/
abbrev AList (K V : Type) := List (K × V)

/-- Lookup in a dict: first binding for the key wins (alistInsert keeps keys
unique, so this is dict lookup). -/
def alistFind {K V : Type} [DecidableEq K] : AList K V → K → Option V
  | [], _ => none
  | (k, v) :: rest, k' => if k = k' then some v else alistFind rest k'

/-- Python dict assignment d[k] = v: replace in place when the key exists,
append otherwise (insertion order preserved). -/
def alistInsert {K V : Type} [DecidableEq K] : AList K V → K → V → AList K V
  | [], k, v => [(k, v)]
  | (k', v') :: rest, k, v =>
      if k' = k then (k', v) :: rest else (k', v') :: alistInsert rest k v

/-- Python `k in d`. -/
def alistContains {K V : Type} [DecidableEq K] (l : AList K V) (k : K) : Bool :=
  (alistFind l k).isSome

/-- list(d.keys()). -/
def alistKeys {K V : Type} (l : AList K V) : List K := l.map Prod.fst

/-- list(d.values()). -/
def alistVals {K V : Type} (l : AList K V) : List V := l.map Prod.snd

/-- Python str.strip(): drop leading and trailing whitespace characters. -/
def pyIsSpace (c : Char) : Bool :=
  c = ' ' || c = '\t' || c = '\n' || c = '\r' || c = '\x0b' || c = '\x0c'

/-- Python str.strip() on the character list of a string. -/
def strip (s : String) : String :=
  String.mk (((s.toList.dropWhile pyIsSpace).reverse.dropWhile pyIsSpace).reverse)

/-- Python str.lower() (ASCII case folding, all the data here is ASCII). -/
def lower (s : String) : String :=
  String.mk (s.toList.map Char.toLower)

/-- Python `needle in haystack` on character lists. -/
def listContainsSub (needle : List Char) : List Char → Bool
  | [] => needle.isEmpty
  | c :: rest => needle.isPrefixOf (c :: rest) || listContainsSub needle rest

/-- Python `needle in haystack` for strings. -/
def containsSub (hay needle : String) : Bool :=
  listContainsSub needle.toList hay.toList

/-- Python str.split(sep)[…] for a one character separator: the exact split
semantics of str.split with an explicit separator. -/
def pySplitGo (sep : Char) : List Char → List Char → List String
  | [], acc => [String.mk acc.reverse]
  | c :: rest, acc =>
      if c = sep then String.mk acc.reverse :: pySplitGo sep rest []
      else pySplitGo sep rest (c :: acc)

/-- Python s.split(sep) for a one character separator. -/
def pySplit (s : String) (sep : Char) : List String :=
  pySplitGo sep s.toList []

/-- The canonical title expression of get_journals_and_no_issns_from_wtcox,
line 61: (package if package else title).split(':')[0]. -/
def canonical (package title : String) : String :=
  (pySplit (if package ≠ "" then package else title) ':').headD ""

/-- The three accumulators of get_journals_and_no_issns_from_wtcox:
issn_title, no_issn (a Python set, modelled as a duplicate free list) and
no_usage. -/
structure LoaderState where
  issn_title : AList String String
  no_issn : List String
  no_usage : AList String String
deriving DecidableEq, Repr

/-- Python set.add. -/
def setAdd (s : List String) (t : String) : List String :=
  if t ∈ s then s else s ++ [t]

/-- One iteration of the row loop of get_journals_and_no_issns_from_wtcox
(lines 53-61).  A row with fewer than 13 fields raises IndexError, modelled
as none.  Field positions: title = x[0], access = x[1], package = x[3],
issn = x[11], publisher = x[12]; all but the publisher are stripped. -/
def procRow (journals_to_ignore special_cases : List String)
    (st : LoaderState) (x : List String) : Option LoaderState :=
  if 12 < x.length then
    let title := strip (x.getD 0 "")
    let issn := strip (x.getD 11 "")
    let package := strip (x.getD 3 "")
    let access := strip (x.getD 1 "")
    let publisher := x.getD 12 ""
    let st1 :=
      if publisher ∉ journals_to_ignore then
        { st with no_usage := alistInsert st.no_usage publisher title }
      else st
    if issn = "" then
      some { st1 with no_issn := setAdd st1.no_issn title }
    else if issn ≠ "9999-9994" ∧ containsSub (lower access) "online"
        ∧ publisher ∉ special_cases then
      some { st1 with issn_title := alistInsert st1.issn_title issn (canonical package title) }
    else
      some st1
  else none

/-- The row loop of get_journals_and_no_issns_from_wtcox over all csv rows. -/
def loadRows (journals_to_ignore special_cases : List String) :
    List (List String) → LoaderState → Option LoaderState
  | [], st => some st
  | x :: xs, st =>
      match procRow journals_to_ignore special_cases st x with
      | none => none
      | some st1 => loadRows journals_to_ignore special_cases xs st1

/-- get_journals_and_no_issns_from_wtcox, with the file already read into a
list of tab separated rows. -/
def get_journals_and_no_issns_from_wtcox (rows : List (List String))
    (journals_to_ignore special_cases : List String) : Option LoaderState :=
  loadRows journals_to_ignore special_cases rows ⟨[], [], []⟩

/-- add_journals_awaiting_fulfillment: dict(from_wtcox, **awaiting), the
awaiting entries win on key collision. -/
def add_journals_awaiting_fulfillment
    (journals_awaiting_fulfillment from_wtcox : AList String String) :
    AList String String :=
  journals_awaiting_fulfillment.foldl (fun m kv => alistInsert m kv.1 kv.2) from_wtcox

/-- A usage table: defaultdict(lambda: defaultdict(int)) keyed by title then
by month. -/
abbrev Usage := AList String (AList Date Int)

/-- Current value of usage[t][d] under defaultdict semantics (0 when absent). -/
def valueAt (u : Usage) (t : String) (d : Date) : Int :=
  (alistFind ((alistFind u t).getD []) d).getD 0

/-- usage[t][d] += c on the nested defaultdicts. -/
def usageAdd (u : Usage) (t : String) (d : Date) (c : Int) : Usage :=
  let inner := (alistFind u t).getD []
  alistInsert u t (alistInsert inner d (((alistFind inner d).getD 0) + c))

/-- usage[t][d] = 0 on the nested defaultdicts. -/
def usageSet0 (u : Usage) (t : String) (d : Date) : Usage :=
  alistInsert u t (alistInsert ((alistFind u t).getD []) d 0)

/-- A parsed journal record of a COUNTER report: getattr(journal, 'issn', '')
is modelled by storing the empty string when the attribute is missing; the
rows are the (month, metric name, count) observation triples the record
iterates over. -/
structure Journal where
  issn : String
  rows : List (Date × String × Int)
deriving DecidableEq, Repr

/-- The inner loops of get_usage_stats_from_wtcox_journals (lines 112-115):
for each journal whose issn is a key of the subscription map, add every
observation count into the table. -/
def processJournal (journals_from_wtcox : AList String String)
    (u : Usage) (j : Journal) : Usage :=
  match alistFind journals_from_wtcox j.issn with
  | some title => j.rows.foldl (fun u r => usageAdd u title r.1 r.2.2) u
  | none => u

/-- One usage report file: its name paired with the outcome of
pycounter.report.parse (the external parser), error on an unparseable file. -/
abbrev ReportFile := String × Except String (List Journal)

/-- get_usage_stats_from_wtcox_journals (lines 105-116): fold the parsed
files into the table; a parse failure prints the file name and re-raises,
modelled as an error carrying that file name. -/
def get_usage_stats_from_wtcox_journals (journals_from_wtcox : AList String String) :
    List ReportFile → Usage → Except String Usage
  | [], u => .ok u
  | (fn, .error _) :: _, _ => .error fn
  | (_, .ok js) :: rest, u =>
      get_usage_stats_from_wtcox_journals journals_from_wtcox rest
        (js.foldl (processJournal journals_from_wtcox) u)

/-- The date loop of fill_in_missing_dates for one title (lines 132-134):
uses[date] = 0 for every date not already present. -/
def fillDates (uses : AList Date Int) (dates : List Date) : AList Date Int :=
  dates.foldl (fun us d => if alistContains us d then us else alistInsert us d 0) uses

/-- fill_in_missing_dates (lines 119-135): for every title already in the
table, insert a zero for every given date not already present. -/
def fill_in_missing_dates (usage : Usage) (dates : List Date) : Usage :=
  usage.map (fun p => (p.1, fillDates p.2 dates))

/-- The inner date loop of fill_in_missing_journals (lines 157-158):
usage[title][date] = 0 for every date of the range. -/
def zeroFill (t : String) (dates : List Date) (usage : Usage) : Usage :=
  dates.foldl (fun u d => usageSet0 u t d) usage

/-- The title loop of fill_in_missing_journals (lines 154-158), with the
usage table and the not_found accumulator threaded through.  A title not in
the table is appended to not_found and zero filled through usage[title][date]
= 0; with an empty date list the defaultdict is never touched, so the title
is not created. -/
def fillJournalsGo (dates : List Date) :
    List String → Usage → List String → Usage × List String
  | [], usage, nf => (usage, nf)
  | t :: ts, usage, nf =>
      if alistContains usage t then fillJournalsGo dates ts usage nf
      else fillJournalsGo dates ts (zeroFill t dates usage) (nf ++ [t])

/-- fill_in_missing_journals (lines 138-159): iterate the subscription map
values in order. -/
def fill_in_missing_journals (from_wtcox : AList String String)
    (usage : Usage) (dates : List Date) : Usage × List String :=
  fillJournalsGo dates (alistVals from_wtcox) usage []

/-- A value handed to csv.writer.writerow: either a Python str (iterating it
yields its characters) or a tuple of fields. -/
inductive PyIterable where
  | str (s : String)
  | tup (fields : List String)
deriving DecidableEq, Repr

/-- The fields csv.writer.writerow produces from its argument: iterating a
str yields its characters as one character strings, iterating a tuple yields
its elements. -/
def pyIterFields : PyIterable → List String
  | .str s => s.toList.map (fun c => String.mk [c])
  | .tup fs => fs

/-- write_journals_not_found_to_file (lines 172-177): writer.writerow(journal)
with journal a str. -/
def write_journals_not_found_rows (not_found : List String) : List (List String) :=
  not_found.map (fun journal => pyIterFields (.str journal))

/-- write_journals_with_no_issn_to_file (lines 189-193):
writer.writerow((title,)). -/
def write_journals_with_no_issn_rows (no_issns : List String) : List (List String) :=
  no_issns.map (fun title => pyIterFields (.tup [title]))

/-- The configured month range of the orchestrator (lines 217-218):
the first of every month of 2015 and 2016 (month is the outer loop, year the
inner one), then January through September 2017. -/
def datesMain : List Date :=
  ((List.range' 1 12).flatMap (fun month =>
      (List.range' 2015 2).map (fun year => ⟨year, month, 1⟩)))
    ++ (List.range' 1 9).map (fun month => ⟨2017, month, 1⟩)

/-- The entry of the usage table at title t and month d, none when either
level misses the key. -/
def lookupVal (u : Usage) (t : String) (d : Date) : Option Int :=
  (alistFind u t).bind (fun inner => alistFind inner d)

/-- The publisher field of a subscription row (x[12]). -/
def rowPub (x : List String) : String := x.getD 12 ""

/-- The stripped title field of a subscription row (x[0].strip()). -/
def rowTitle (x : List String) : String := strip (x.getD 0 "")

/-- The title of the last row of the list whose publisher field is q. -/
def lastTitleFor (q : String) : List (List String) → Option String
  | [] => none
  | x :: xs =>
      match lastTitleFor q xs with
      | some ttl => some ttl
      | none => if rowPub x = q then some (rowTitle x) else none

/-- Whether a parse outcome succeeded. -/
def exceptIsOk {ε α : Type} : Except ε α → Bool
  | .ok _ => true
  | .error _ => false

/-- The canonicalization the spec describes in words: the package identifier
when non empty, else the row title, truncated at the first colon. -/
def canonicalSpec (package title : String) : String :=
  String.mk ((if package ≠ "" then package else title).toList.takeWhile (fun c => c ≠ ':'))

/-! Generic lemmas about the dict embedding. -/

theorem alistFind_insert_self {K V : Type} [DecidableEq K]
    (l : AList K V) (k : K) (v : V) :
    alistFind (alistInsert l k v) k = some v := by
  induction l with
  | nil => simp [alistInsert, alistFind]
  | cons p rest ih =>
      obtain ⟨k', v'⟩ := p
      by_cases h : k' = k
      · subst h
        simp [alistInsert, alistFind]
      · simp [alistInsert, alistFind, h, ih]

theorem alistFind_insert_ne {K V : Type} [DecidableEq K]
    (l : AList K V) (k k' : K) (v : V) (h : k ≠ k') :
    alistFind (alistInsert l k v) k' = alistFind l k' := by
  induction l with
  | nil => simp [alistInsert, alistFind, h]
  | cons p rest ih =>
      obtain ⟨k0, v0⟩ := p
      by_cases h0 : k0 = k
      · subst h0
        simp [alistInsert, alistFind, h]
      · simp only [alistInsert, if_neg h0, alistFind]
        by_cases h1 : k0 = k'
        · simp [h1]
        · simp [h1, ih]

theorem alistKeys_insert {K V : Type} [DecidableEq K]
    (l : AList K V) (k : K) (v : V) :
    alistKeys (alistInsert l k v) =
      if k ∈ alistKeys l then alistKeys l else alistKeys l ++ [k] := by
  induction l with
  | nil => simp [alistInsert, alistKeys]
  | cons p rest ih =>
      obtain ⟨k0, v0⟩ := p
      by_cases h0 : k0 = k
      · subst h0
        simp [alistInsert, alistKeys]
      · have hne : ¬ k = k0 := fun h => h0 h.symm
        simp only [alistInsert, if_neg h0, alistKeys, List.map_cons, List.mem_cons, hne,
          false_or] at *
        by_cases hmem : k ∈ alistKeys rest
        · simp [alistKeys] at hmem ih ⊢
          simp [hmem] at ih
          simp [hmem, ih]
        · simp [alistKeys] at hmem ih ⊢
          simp [hmem] at ih
          simp [hmem, ih]

theorem mem_alistKeys_insert {K V : Type} [DecidableEq K]
    (l : AList K V) (k : K) (v : V) (t : K) :
    t ∈ alistKeys (alistInsert l k v) ↔ t ∈ alistKeys l ∨ t = k := by
  rw [alistKeys_insert]
  by_cases hmem : k ∈ alistKeys l
  · simp only [if_pos hmem]
    constructor
    · exact fun h => Or.inl h
    · rintro (h | rfl)
      · exact h
      · exact hmem
  · simp [if_neg hmem]

theorem alistContains_iff_mem_keys {K V : Type} [DecidableEq K]
    (l : AList K V) (k : K) :
    alistContains l k = true ↔ k ∈ alistKeys l := by
  induction l with
  | nil => simp [alistContains, alistFind, alistKeys]
  | cons p rest ih =>
      obtain ⟨k0, v0⟩ := p
      by_cases h0 : k0 = k
      · subst h0
        simp [alistContains, alistFind, alistKeys]
      · have hne : ¬ k = k0 := fun h => h0 h.symm
        simp [alistContains, alistFind, h0, alistKeys, hne] at ih ⊢
        exact ih

theorem alistFind_eq_none_iff {K V : Type} [DecidableEq K]
    (l : AList K V) (k : K) :
    alistFind l k = none ↔ k ∉ alistKeys l := by
  have h := alistContains_iff_mem_keys l k
  simp only [alistContains] at h
  constructor
  · intro hn hmem
    rw [← h] at hmem
    rw [hn] at hmem
    simp at hmem
  · intro hmem
    cases hfind : alistFind l k with
    | none => rfl
    | some v =>
        exfalso
        exact hmem (h.mp (by simp [hfind]))

theorem alistKeys_nodup_insert {K V : Type} [DecidableEq K]
    (l : AList K V) (k : K) (v : V) (h : (alistKeys l).Nodup) :
    (alistKeys (alistInsert l k v)).Nodup := by
  rw [alistKeys_insert]
  by_cases hmem : k ∈ alistKeys l
  · simpa [if_pos hmem] using h
  · simp only [if_neg hmem]
    simpa [List.nodup_append] using ⟨h, hmem⟩

theorem alistFind_mem_vals {K V : Type} [DecidableEq K]
    (m : AList K V) (k : K) (v : V) (h : alistFind m k = some v) :
    v ∈ alistVals m := by
  induction m with
  | nil => simp [alistFind] at h
  | cons p rest ih =>
      obtain ⟨k0, v0⟩ := p
      by_cases h0 : k0 = k
      · subst h0
        simp [alistFind] at h
        simp [alistVals, h]
      · simp [alistFind, h0] at h
        simp [alistVals] at ih ⊢
        exact Or.inr (ih h)

/-! Lemmas about fillDates and fill_in_missing_dates. -/

theorem fillDates_cons (us : AList Date Int) (d : Date) (ds : List Date) :
    fillDates us (d :: ds) =
      fillDates (if alistContains us d then us else alistInsert us d 0) ds := rfl

theorem fillDates_preserve (ds : List Date) (us : AList Date Int) (d : Date) (c : Int)
    (h : alistFind us d = some c) : alistFind (fillDates us ds) d = some c := by
  induction ds generalizing us with
  | nil => simpa [fillDates] using h
  | cons d0 ds ih =>
      rw [fillDates_cons]
      by_cases hc : alistContains us d0 = true
      · rw [if_pos hc]
        exact ih us h
      · rw [if_neg hc]
        apply ih
        have hne : d0 ≠ d := by
          intro he
          subst he
          simp [alistContains, h] at hc
        rw [alistFind_insert_ne us d0 d 0 hne]
        exact h

theorem fillDates_new (ds : List Date) (us : AList Date Int) (d : Date) (c : Int)
    (h : alistFind (fillDates us ds) d = some c) :
    alistFind us d = some c ∨ (d ∈ ds ∧ c = 0 ∧ alistFind us d = none) := by
  induction ds generalizing us with
  | nil => left; simpa [fillDates] using h
  | cons d0 ds ih =>
      rw [fillDates_cons] at h
      by_cases hc : alistContains us d0 = true
      · rw [if_pos hc] at h
        rcases ih us h with h1 | ⟨hm, hc0, hn⟩
        · exact Or.inl h1
        · exact Or.inr ⟨List.mem_cons_of_mem _ hm, hc0, hn⟩
      · rw [if_neg hc] at h
        rcases ih _ h with h1 | ⟨hm, hc0, hn⟩
        · by_cases hd : d0 = d
          · subst hd
            rw [alistFind_insert_self] at h1
            have hcc : c = 0 := by
              injection h1 with h1
              exact h1.symm
            have hnn : alistFind us d0 = none := by
              cases hf : alistFind us d0 with
              | none => rfl
              | some v => simp [alistContains, hf] at hc
            exact Or.inr ⟨List.mem_cons_self _ _, hcc, hnn⟩
          · rw [alistFind_insert_ne us d0 d 0 hd] at h1
            exact Or.inl h1
        · by_cases hd : d0 = d
          · subst hd
            rw [alistFind_insert_self] at hn
            cases hn
          · rw [alistFind_insert_ne us d0 d 0 hd] at hn
            exact Or.inr ⟨List.mem_cons_of_mem _ hm, hc0, hn⟩

theorem fillDates_present (ds : List Date) (us : AList Date Int) (d : Date)
    (h : d ∈ ds) : (alistFind (fillDates us ds) d).isSome = true := by
  induction ds generalizing us with
  | nil => cases h
  | cons d0 ds ih =>
      rw [fillDates_cons]
      rcases List.mem_cons.mp h with rfl | hm
      · by_cases hc : alistContains us d = true
        · rw [if_pos hc]
          obtain ⟨c, hfc⟩ := Option.isSome_iff_exists.mp (by simpa [alistContains] using hc)
          rw [fillDates_preserve ds us d c hfc]
          rfl
        · rw [if_neg hc]
          rw [fillDates_preserve ds _ d 0 (alistFind_insert_self us d 0)]
          rfl
      · by_cases hc : alistContains us d0 = true
        · rw [if_pos hc]
          exact ih us hm
        · rw [if_neg hc]
          exact ih _ hm

theorem find_fill_in_missing_dates (u : Usage) (ds : List Date) (t : String) :
    alistFind (fill_in_missing_dates u ds) t =
      (alistFind u t).map (fun inner => fillDates inner ds) := by
  induction u with
  | nil => simp [fill_in_missing_dates, alistFind]
  | cons p rest ih =>
      obtain ⟨k, v⟩ := p
      by_cases hk : k = t
      · subst hk
        simp [fill_in_missing_dates, alistFind]
      · simp only [fill_in_missing_dates, List.map_cons, alistFind, if_neg hk] at ih ⊢
        exact ih

theorem keys_fill_in_missing_dates (u : Usage) (ds : List Date) :
    alistKeys (fill_in_missing_dates u ds) = alistKeys u := by
  simp only [fill_in_missing_dates, alistKeys, List.map_map]
  rfl

/-- C7: fill_in_missing_dates only inserts zero counts for months of the
given range that a title does not already have: it adds no new title keys to
the usage table, every entry already present before the call is unchanged
after it, and every entry of the result either was already there or is a
zero at a month of the range that was previously absent. -/
theorem fill_in_missing_dates_frame (usage : Usage) (dates : List Date) :
    alistKeys (fill_in_missing_dates usage dates) = alistKeys usage ∧
    (∀ t d c, lookupVal usage t d = some c →
      lookupVal (fill_in_missing_dates usage dates) t d = some c) ∧
    (∀ t d c, lookupVal (fill_in_missing_dates usage dates) t d = some c →
      lookupVal usage t d = some c ∨
        (d ∈ dates ∧ c = 0 ∧ lookupVal usage t d = none)) := by
  refine ⟨keys_fill_in_missing_dates usage dates, ?_, ?_⟩
  · intro t d c h
    unfold lookupVal at h ⊢
    cases hf : alistFind usage t with
    | none =>
        rw [hf] at h
        exact Option.noConfusion h
    | some inner =>
        rw [hf] at h
        rw [find_fill_in_missing_dates, hf]
        exact fillDates_preserve dates inner d c h
  · intro t d c h
    unfold lookupVal at h ⊢
    rw [find_fill_in_missing_dates] at h
    cases hf : alistFind usage t with
    | none =>
        rw [hf] at h
        exact Option.noConfusion h
    | some inner =>
        rw [hf] at h
        have h1 : alistFind (fillDates inner dates) d = some c := h
        rcases fillDates_new dates inner d c h1 with h2 | ⟨hm, hc, hn⟩
        · exact Or.inl h2
        · exact Or.inr ⟨hm, hc, hn⟩

/-- Witness for fill_in_missing_dates_frame at a concrete table: the entry
(title A, Feb 2020, count 7) survives the filling of Jan and Feb 2020. -/
theorem fill_in_missing_dates_frame_witness :
    lookupVal (fill_in_missing_dates [("A", [(⟨2020, 2, 1⟩, 7)])]
      [⟨2020, 1, 1⟩, ⟨2020, 2, 1⟩]) "A" ⟨2020, 2, 1⟩ = some 7 :=
  (fill_in_missing_dates_frame [("A", [(⟨2020, 2, 1⟩, 7)])]
      [⟨2020, 1, 1⟩, ⟨2020, 2, 1⟩]).2.1 "A" ⟨2020, 2, 1⟩ 7 (by decide)

/-! Canonicalization via split, against its specification via takeWhile. -/

theorem pySplitGo_headD (sep : Char) (cs acc : List Char) :
    (pySplitGo sep cs acc).headD "" =
      String.mk (acc.reverse ++ cs.takeWhile (fun c => c ≠ sep)) := by
  induction cs generalizing acc with
  | nil => simp [pySplitGo]
  | cons c rest ih =>
      by_cases hc : c = sep
      · subst hc
        simp [pySplitGo]
      · simp only [pySplitGo, if_neg hc]
        rw [ih]
        simp [hc]

/-- C6: the canonical key is the deterministic function taking the package
identifier when it is non empty, else the row title, truncated at the first
colon; in particular title Foo colon Bar Edition with an empty package gives
the key Foo. -/
theorem canonical_colon_truncation :
    (∀ package title, canonical package title = canonicalSpec package title) ∧
    canonical "" "Foo: Bar Edition" = "Foo" := by
  constructor
  · intro package title
    unfold canonical canonicalSpec pySplit
    rw [pySplitGo_headD]
    simp
  · decide

/-- C9: the not-found writer hands the bare title string to writerow, so the
emitted row's fields are the characters of the title, while the no-issn
writer wraps the title in a one element tuple and emits a single field; for
any title that is not exactly one character long the two rows differ. -/
theorem not_found_rows_are_characters :
    ∀ (ts : List String),
      write_journals_not_found_rows ts =
        ts.map (fun t => t.toList.map (fun c => String.mk [c])) ∧
      write_journals_with_no_issn_rows ts = ts.map (fun t => [t]) ∧
      ∀ t ∈ ts, t.toList.length ≠ 1 →
        pyIterFields (.str t) ≠ pyIterFields (.tup [t]) := by
  intro ts
  refine ⟨rfl, rfl, ?_⟩
  intro t _ hlen heq
  have h1 : (pyIterFields (PyIterable.str t)).length = t.toList.length := by
    simp [pyIterFields]
  have h2 : (pyIterFields (PyIterable.tup [t])).length = 1 := by
    simp [pyIterFields]
  rw [heq, h2] at h1
  exact hlen h1.symm

/-- Witness for not_found_rows_are_characters: the two writers produce
different rows for the two character title AB. -/
theorem not_found_rows_are_characters_witness :
    pyIterFields (.str "AB") ≠ pyIterFields (.tup ["AB"]) :=
  (not_found_rows_are_characters ["AB"]).2.2 "AB" (by decide) (by decide)

/-! Additivity of the aggregation. -/

theorem valueAt_usageAdd_self (u : Usage) (t : String) (d : Date) (c : Int) :
    valueAt (usageAdd u t d c) t d = valueAt u t d + c := by
  unfold valueAt usageAdd
  rw [alistFind_insert_self]
  simp only [Option.getD_some]
  rw [alistFind_insert_self]
  simp

/-- C4: two observations for the same canonical title and month, coming from
two report files, sum in the aggregated table: starting from the empty table
the value held for that title and month is a + b. -/
theorem usage_counts_accumulate :
    ∀ (m : AList String String) (i1 i2 t : String) (d : Date)
      (met1 met2 : String) (a b : Int),
      alistFind m i1 = some t → alistFind m i2 = some t →
      ∃ u, get_usage_stats_from_wtcox_journals m
          [("r1.tsv", Except.ok [⟨i1, [(d, met1, a)]⟩]),
           ("r2.tsv", Except.ok [⟨i2, [(d, met2, b)]⟩])] [] = Except.ok u ∧
        valueAt u t d = a + b := by
  intro m i1 i2 t d met1 met2 a b h1 h2
  refine ⟨usageAdd (usageAdd [] t d a) t d b, ?_, ?_⟩
  · simp [get_usage_stats_from_wtcox_journals, processJournal, h1, h2]
  · rw [valueAt_usageAdd_self, valueAt_usageAdd_self]
    have h0 : valueAt [] t d = 0 := rfl
    rw [h0]
    ring

/-- Witness for usage_counts_accumulate: counts 5 and 3 for the same title
and month from two files aggregate to 8. -/
theorem usage_counts_accumulate_witness :
    ∃ u, get_usage_stats_from_wtcox_journals [("1111-2222", "A")]
        [("r1.tsv", Except.ok [⟨"1111-2222", [(⟨2016, 1, 1⟩, "FT", 5)]⟩]),
         ("r2.tsv", Except.ok [⟨"1111-2222", [(⟨2016, 1, 1⟩, "FT", 3)]⟩])] [] = Except.ok u ∧
      valueAt u "A" ⟨2016, 1, 1⟩ = 5 + 3 :=
  usage_counts_accumulate [("1111-2222", "A")] "1111-2222" "1111-2222" "A"
    ⟨2016, 1, 1⟩ "FT" "FT" 5 3 (by decide) (by decide)

/-- C8: a parse failure on any report file aborts the aggregation with that
file's name as the diagnostic: with every earlier file parsing fine, the
aggregator returns the error naming the failing file and produces no usage
table. -/
theorem parse_failure_aborts :
    ∀ (m : AList String String) (u0 : Usage) (pre : List ReportFile)
      (fn err : String) (rest : List ReportFile),
      (∀ p ∈ pre, exceptIsOk p.2 = true) →
      get_usage_stats_from_wtcox_journals m (pre ++ (fn, Except.error err) :: rest) u0 =
        Except.error fn := by
  intro m u0 pre
  induction pre generalizing u0 with
  | nil =>
      intro fn err rest _
      rfl
  | cons p pre ih =>
      intro fn err rest hok
      obtain ⟨n, r⟩ := p
      cases r with
      | error e =>
          have hbad := hok (n, .error e) (List.mem_cons_self _ _)
          simp [exceptIsOk] at hbad
      | ok js =>
          simp only [List.cons_append]
          show get_usage_stats_from_wtcox_journals m (pre ++ (fn, Except.error err) :: rest)
            (js.foldl (processJournal m) u0) = Except.error fn
          exact ih _ fn err rest (fun q hq => hok q (List.mem_cons_of_mem _ hq))

/-- Witness for parse_failure_aborts: with one good file before it, the bad
file's name comes back as the error and no table is produced. -/
theorem parse_failure_aborts_witness :
    get_usage_stats_from_wtcox_journals [("1111-2222", "A")]
      [("good.tsv", Except.ok []), ("bad.tsv", Except.error "malformed"),
       ("later.tsv", Except.ok [])] [] = Except.error "bad.tsv" :=
  parse_failure_aborts [("1111-2222", "A")] [] [("good.tsv", Except.ok [])]
    "bad.tsv" "malformed" [("later.tsv", Except.ok [])] (by decide)

/-! Lemmas about lookupVal, usageSet0 and zeroFill. -/

theorem lookupVal_of_find (u : Usage) (t : String) (d : Date) (inner : AList Date Int)
    (hf : alistFind u t = some inner) : lookupVal u t d = alistFind inner d := by
  rw [lookupVal, hf]
  rfl

theorem lookupVal_of_find_none (u : Usage) (t : String) (d : Date)
    (hf : alistFind u t = none) : lookupVal u t d = none := by
  rw [lookupVal, hf]
  rfl

theorem find_usageSet0_self (u : Usage) (t : String) (d : Date) :
    alistFind (usageSet0 u t d) t =
      some (alistInsert ((alistFind u t).getD []) d 0) :=
  alistFind_insert_self u t _

theorem find_usageSet0_ne (u : Usage) (s t : String) (d : Date) (h : s ≠ t) :
    alistFind (usageSet0 u s d) t = alistFind u t :=
  alistFind_insert_ne u s t _ h

theorem lookupVal_usageSet0_self (u : Usage) (t : String) (d : Date) :
    lookupVal (usageSet0 u t d) t d = some 0 := by
  rw [lookupVal_of_find _ _ _ _ (find_usageSet0_self u t d)]
  exact alistFind_insert_self _ d 0

theorem lookupVal_usageSet0_mono (u : Usage) (s t : String) (d' d : Date)
    (h : (lookupVal u t d).isSome = true) :
    (lookupVal (usageSet0 u s d') t d).isSome = true := by
  by_cases hst : s = t
  · subst hst
    rw [lookupVal_of_find _ _ _ _ (find_usageSet0_self u s d')]
    cases hf : alistFind u s with
    | none =>
        rw [lookupVal_of_find_none u s d hf] at h
        simp at h
    | some inner =>
        rw [lookupVal_of_find u s d inner hf] at h
        simp only [Option.getD_some]
        by_cases hdd : d' = d
        · subst hdd
          rw [alistFind_insert_self]
          rfl
        · rw [alistFind_insert_ne _ _ _ _ hdd]
          exact h
  · have hsame : lookupVal (usageSet0 u s d') t d = lookupVal u t d := by
      unfold lookupVal
      rw [find_usageSet0_ne u s t d' hst]
    rw [hsame]
    exact h

theorem lookupVal_usageSet0_rev (u : Usage) (s t : String) (d' d : Date)
    (h : (lookupVal (usageSet0 u s d') t d).isSome = true) :
    (lookupVal u t d).isSome = true ∨ d = d' := by
  by_cases hst : s = t
  · subst hst
    rw [lookupVal_of_find _ _ _ _ (find_usageSet0_self u s d')] at h
    by_cases hdd : d' = d
    · exact Or.inr hdd.symm
    · rw [alistFind_insert_ne _ _ _ _ hdd] at h
      cases hf : alistFind u s with
      | none =>
          rw [hf] at h
          simp [alistFind] at h
      | some inner =>
          rw [hf] at h
          simp only [Option.getD_some] at h
          rw [lookupVal_of_find u s d inner hf]
          exact Or.inl h
  · have hsame : lookupVal (usageSet0 u s d') t d = lookupVal u t d := by
      unfold lookupVal
      rw [find_usageSet0_ne u s t d' hst]
    rw [hsame] at h
    exact Or.inl h

theorem mem_keys_usageSet0 (u : Usage) (t s : String) (d : Date) :
    s ∈ alistKeys (usageSet0 u t d) ↔ s ∈ alistKeys u ∨ s = t :=
  mem_alistKeys_insert u t _ s

theorem zeroFill_cons (t : String) (d : Date) (ds : List Date) (u : Usage) :
    zeroFill t (d :: ds) u = zeroFill t ds (usageSet0 u t d) := rfl

theorem zeroFill_keys_mono (dates : List Date) (t s : String) (u : Usage)
    (h : s ∈ alistKeys u) : s ∈ alistKeys (zeroFill t dates u) := by
  induction dates generalizing u with
  | nil => exact h
  | cons d ds ih =>
      rw [zeroFill_cons]
      exact ih _ ((mem_keys_usageSet0 u t s d).mpr (Or.inl h))

theorem zeroFill_mem_self (dates : List Date) (t : String) (u : Usage)
    (hd : dates ≠ []) : t ∈ alistKeys (zeroFill t dates u) := by
  cases dates with
  | nil => exact absurd rfl hd
  | cons d ds =>
      rw [zeroFill_cons]
      exact zeroFill_keys_mono ds t t _ ((mem_keys_usageSet0 u t t d).mpr (Or.inr rfl))

theorem zeroFill_keys_sub (dates : List Date) (t s : String) (u : Usage)
    (h : s ∈ alistKeys (zeroFill t dates u)) : s ∈ alistKeys u ∨ s = t := by
  induction dates generalizing u with
  | nil => exact Or.inl h
  | cons d ds ih =>
      rw [zeroFill_cons] at h
      rcases ih _ h with h1 | h1
      · exact (mem_keys_usageSet0 u t s d).mp h1
      · exact Or.inr h1

theorem zeroFill_find_ne (dates : List Date) (t s : String) (u : Usage)
    (h : s ≠ t) : alistFind (zeroFill t dates u) s = alistFind u s := by
  induction dates generalizing u with
  | nil => rfl
  | cons d ds ih =>
      rw [zeroFill_cons, ih]
      exact find_usageSet0_ne u t s d (fun he => h he.symm)

theorem lookupVal_zeroFill_mono (dates : List Date) (u : Usage) (s t : String)
    (d : Date) (h : (lookupVal u t d).isSome = true) :
    (lookupVal (zeroFill s dates u) t d).isSome = true := by
  induction dates generalizing u with
  | nil => exact h
  | cons d0 ds ih =>
      rw [zeroFill_cons]
      exact ih _ (lookupVal_usageSet0_mono u s t d0 d h)

theorem lookupVal_zeroFill_self (dates : List Date) (u : Usage) (t : String)
    (d : Date) :
    d ∈ dates → (lookupVal (zeroFill t dates u) t d).isSome = true := by
  induction dates generalizing u with
  | nil => intro hd; cases hd
  | cons d0 ds ih =>
      intro hd
      rw [zeroFill_cons]
      rcases List.mem_cons.mp hd with rfl | hm
      · apply lookupVal_zeroFill_mono
        rw [lookupVal_usageSet0_self]
        rfl
      · exact ih _ hm

theorem lookupVal_zeroFill_rev (dates : List Date) (u : Usage) (s t : String)
    (d : Date) (h : (lookupVal (zeroFill s dates u) t d).isSome = true) :
    (lookupVal u t d).isSome = true ∨ d ∈ dates := by
  induction dates generalizing u with
  | nil => exact Or.inl h
  | cons d0 ds ih =>
      rw [zeroFill_cons] at h
      rcases ih _ h with h1 | h1
      · rcases lookupVal_usageSet0_rev u s t d0 d h1 with h2 | h2
        · exact Or.inl h2
        · exact Or.inr (by rw [h2]; exact List.mem_cons_self _ _)
      · exact Or.inr (List.mem_cons_of_mem _ h1)

theorem zeroFill_nodup_keys (dates : List Date) (t : String) (u : Usage)
    (h : (alistKeys u).Nodup) : (alistKeys (zeroFill t dates u)).Nodup := by
  induction dates generalizing u with
  | nil => exact h
  | cons d ds ih =>
      rw [zeroFill_cons]
      exact ih _ (alistKeys_nodup_insert u t _ h)

/-! Lemmas about the title loop of fill_in_missing_journals. -/

theorem fillJournalsGo_cons (dates : List Date) (t : String) (ts : List String)
    (usage : Usage) (nf : List String) :
    fillJournalsGo dates (t :: ts) usage nf =
      if alistContains usage t then fillJournalsGo dates ts usage nf
      else fillJournalsGo dates ts (zeroFill t dates usage) (nf ++ [t]) := rfl

theorem go_keys_mono (dates : List Date) (ts : List String) (s : String) :
    ∀ (usage : Usage) (nf : List String), s ∈ alistKeys usage →
      s ∈ alistKeys (fillJournalsGo dates ts usage nf).1 := by
  induction ts with
  | nil => intro usage nf h; exact h
  | cons t ts ih =>
      intro usage nf h
      rw [fillJournalsGo_cons]
      by_cases hc : alistContains usage t = true
      · rw [if_pos hc]
        exact ih usage nf h
      · rw [if_neg hc]
        exact ih _ _ (zeroFill_keys_mono dates t s usage h)

theorem go_keys_of_mem (dates : List Date) (ts : List String) (s : String)
    (hd : dates ≠ []) :
    ∀ (usage : Usage) (nf : List String), s ∈ ts →
      s ∈ alistKeys (fillJournalsGo dates ts usage nf).1 := by
  induction ts with
  | nil => intro usage nf h; cases h
  | cons t ts ih =>
      intro usage nf h
      rw [fillJournalsGo_cons]
      rcases List.mem_cons.mp h with rfl | hm
      · by_cases hc : alistContains usage s = true
        · rw [if_pos hc]
          exact go_keys_mono dates ts s usage nf
            ((alistContains_iff_mem_keys usage s).mp hc)
        · rw [if_neg hc]
          exact go_keys_mono dates ts s _ _ (zeroFill_mem_self dates s usage hd)
      · by_cases hc : alistContains usage t = true
        · rw [if_pos hc]
          exact ih usage nf hm
        · rw [if_neg hc]
          exact ih _ _ hm

theorem go_keys_sub (dates : List Date) (ts : List String) (s : String) :
    ∀ (usage : Usage) (nf : List String),
      s ∈ alistKeys (fillJournalsGo dates ts usage nf).1 →
      s ∈ alistKeys usage ∨ s ∈ ts := by
  induction ts with
  | nil => intro usage nf h; exact Or.inl h
  | cons t ts ih =>
      intro usage nf h
      rw [fillJournalsGo_cons] at h
      by_cases hc : alistContains usage t = true
      · rw [if_pos hc] at h
        rcases ih usage nf h with h1 | h1
        · exact Or.inl h1
        · exact Or.inr (List.mem_cons_of_mem _ h1)
      · rw [if_neg hc] at h
        rcases ih _ _ h with h1 | h1
        · rcases zeroFill_keys_sub dates t s usage h1 with h2 | h2
          · exact Or.inl h2
          · exact Or.inr (by rw [h2]; exact List.mem_cons_self _ _)
        · exact Or.inr (List.mem_cons_of_mem _ h1)

theorem go_nf_mono (dates : List Date) (ts : List String) (s : String) :
    ∀ (usage : Usage) (nf : List String), s ∈ nf →
      s ∈ (fillJournalsGo dates ts usage nf).2 := by
  induction ts with
  | nil => intro usage nf h; exact h
  | cons t ts ih =>
      intro usage nf h
      rw [fillJournalsGo_cons]
      by_cases hc : alistContains usage t = true
      · rw [if_pos hc]
        exact ih usage nf h
      · rw [if_neg hc]
        exact ih _ _ (List.mem_append_left _ h)

theorem go_nf_iff_of_mem_keys (dates : List Date) (ts : List String) (s : String) :
    ∀ (usage : Usage) (nf : List String), s ∈ alistKeys usage →
      (s ∈ (fillJournalsGo dates ts usage nf).2 ↔ s ∈ nf) := by
  induction ts with
  | nil => intro usage nf _; exact Iff.rfl
  | cons t ts ih =>
      intro usage nf hs
      rw [fillJournalsGo_cons]
      by_cases hc : alistContains usage t = true
      · rw [if_pos hc]
        exact ih usage nf hs
      · rw [if_neg hc]
        have ht : t ∉ alistKeys usage := fun hm =>
          hc ((alistContains_iff_mem_keys usage t).mpr hm)
        have hne : s ≠ t := fun he => ht (he ▸ hs)
        rw [ih _ _ (zeroFill_keys_mono dates t s usage hs)]
        simp only [List.mem_append, List.mem_singleton]
        constructor
        · rintro (h1 | h1)
          · exact h1
          · exact absurd h1 hne
        · exact fun h1 => Or.inl h1

theorem go_mem_or_nf (dates : List Date) (ts : List String) (s : String) :
    ∀ (usage : Usage) (nf : List String), s ∈ ts →
      s ∈ alistKeys usage ∨ s ∈ (fillJournalsGo dates ts usage nf).2 := by
  induction ts with
  | nil => intro usage nf h; cases h
  | cons t ts ih =>
      intro usage nf h
      rw [fillJournalsGo_cons]
      by_cases hc : alistContains usage t = true
      · rw [if_pos hc]
        rcases List.mem_cons.mp h with rfl | hm
        · exact Or.inl ((alistContains_iff_mem_keys usage s).mp hc)
        · exact ih usage nf hm
      · rw [if_neg hc]
        rcases List.mem_cons.mp h with rfl | hm
        · exact Or.inr (go_nf_mono dates ts s _ _
            (List.mem_append_right _ (List.mem_singleton.mpr rfl)))
        · rcases ih (zeroFill t dates usage) (nf ++ [t]) hm with h1 | h1
          · rcases zeroFill_keys_sub dates t s usage h1 with h2 | h2
            · exact Or.inl h2
            · subst h2
              exact Or.inr (go_nf_mono dates ts s _ _
                (List.mem_append_right _ (List.mem_singleton.mpr rfl)))
          · exact Or.inr h1

theorem go_nf_nodup (dates : List Date) (ts : List String) (hd : dates ≠ []) :
    ∀ (usage : Usage) (nf : List String), nf.Nodup →
      (∀ x ∈ nf, x ∈ alistKeys usage) →
      (fillJournalsGo dates ts usage nf).2.Nodup := by
  induction ts with
  | nil => intro usage nf hn _; exact hn
  | cons t ts ih =>
      intro usage nf hn hsub
      rw [fillJournalsGo_cons]
      by_cases hc : alistContains usage t = true
      · rw [if_pos hc]
        exact ih usage nf hn hsub
      · rw [if_neg hc]
        have ht : t ∉ alistKeys usage := fun hm =>
          hc ((alistContains_iff_mem_keys usage t).mpr hm)
        apply ih
        · have htn : t ∉ nf := fun hm => ht (hsub t hm)
          rw [List.nodup_append]
          refine ⟨hn, List.nodup_singleton t, ?_⟩
          intro a ha hb
          exact htn ((List.mem_singleton.mp hb) ▸ ha)
        · intro x hx
          rcases List.mem_append.mp hx with h1 | h1
          · exact zeroFill_keys_mono dates t x usage (hsub x h1)
          · rw [List.mem_singleton.mp h1]
            exact zeroFill_mem_self dates t usage hd

theorem go_month_inv (dates : List Date) (ts : List String) :
    ∀ (usage : Usage) (nf : List String),
      (∀ x, x ∈ alistKeys usage → ∀ d ∈ dates, (lookupVal usage x d).isSome = true) →
      ∀ x, x ∈ alistKeys (fillJournalsGo dates ts usage nf).1 →
        ∀ d ∈ dates, (lookupVal (fillJournalsGo dates ts usage nf).1 x d).isSome = true := by
  induction ts with
  | nil => intro usage nf h; exact h
  | cons t ts ih =>
      intro usage nf h
      rw [fillJournalsGo_cons]
      by_cases hc : alistContains usage t = true
      · rw [if_pos hc]
        exact ih usage nf h
      · rw [if_neg hc]
        apply ih
        intro x hx d hdm
        rcases zeroFill_keys_sub dates t x usage hx with h1 | h1
        · exact lookupVal_zeroFill_mono dates usage t x d (h x h1 d hdm)
        · rw [h1]
          exact lookupVal_zeroFill_self dates usage t d hdm

theorem go_month_rev (dates : List Date) (ts : List String) (t : String) (d : Date) :
    ∀ (usage : Usage) (nf : List String),
      (lookupVal (fillJournalsGo dates ts usage nf).1 t d).isSome = true →
      (lookupVal usage t d).isSome = true ∨ d ∈ dates := by
  induction ts with
  | nil => intro usage nf h; exact Or.inl h
  | cons s ts ih =>
      intro usage nf h
      rw [fillJournalsGo_cons] at h
      by_cases hc : alistContains usage s = true
      · rw [if_pos hc] at h
        exact ih usage nf h
      · rw [if_neg hc] at h
        rcases ih _ _ h with h1 | h1
        · exact lookupVal_zeroFill_rev dates usage s t d h1
        · exact Or.inr h1

theorem go_nodup_keys (dates : List Date) (ts : List String) :
    ∀ (usage : Usage) (nf : List String), (alistKeys usage).Nodup →
      (alistKeys (fillJournalsGo dates ts usage nf).1).Nodup := by
  induction ts with
  | nil => intro usage nf h; exact h
  | cons t ts ih =>
      intro usage nf h
      rw [fillJournalsGo_cons]
      by_cases hc : alistContains usage t = true
      · rw [if_pos hc]
        exact ih usage nf h
      · rw [if_neg hc]
        exact ih _ _ (zeroFill_nodup_keys dates t usage h)

/-! Lemmas about the aggregation. -/

theorem keys_usageAdd (u : Usage) (t s : String) (d : Date) (c : Int) :
    s ∈ alistKeys (usageAdd u t d c) ↔ s ∈ alistKeys u ∨ s = t :=
  mem_alistKeys_insert u t _ s

theorem rows_foldl_keys (rows : List (Date × String × Int)) (title s : String) :
    ∀ u : Usage,
      s ∈ alistKeys (rows.foldl (fun u r => usageAdd u title r.1 r.2.2) u) →
      s ∈ alistKeys u ∨ s = title := by
  induction rows with
  | nil => intro u h; exact Or.inl h
  | cons r rows ih =>
      intro u h
      simp only [List.foldl_cons] at h
      rcases ih _ h with h1 | h1
      · exact (keys_usageAdd u title s r.1 r.2.2).mp h1
      · exact Or.inr h1

theorem pj_keys (m : AList String String) (j : Journal) (s : String) (u : Usage)
    (h : s ∈ alistKeys (processJournal m u j)) :
    s ∈ alistKeys u ∨ s ∈ alistVals m := by
  unfold processJournal at h
  cases hf : alistFind m j.issn with
  | none => rw [hf] at h; exact Or.inl h
  | some title =>
      rw [hf] at h
      rcases rows_foldl_keys j.rows title s u h with h1 | h1
      · exact Or.inl h1
      · exact Or.inr (h1 ▸ alistFind_mem_vals m j.issn title hf)

theorem js_foldl_keys (m : AList String String) (js : List Journal) (s : String) :
    ∀ u : Usage, s ∈ alistKeys (js.foldl (processJournal m) u) →
      s ∈ alistKeys u ∨ s ∈ alistVals m := by
  induction js with
  | nil => intro u h; exact Or.inl h
  | cons j js ih =>
      intro u h
      simp only [List.foldl_cons] at h
      rcases ih _ h with h1 | h1
      · exact pj_keys m j s u h1
      · exact Or.inr h1

theorem agg_keys (m : AList String String) (files : List ReportFile) (s : String) :
    ∀ (u0 u : Usage), get_usage_stats_from_wtcox_journals m files u0 = .ok u →
      s ∈ alistKeys u → s ∈ alistKeys u0 ∨ s ∈ alistVals m := by
  induction files with
  | nil =>
      intro u0 u h hm
      injection h with h
      rw [← h] at hm
      exact Or.inl hm
  | cons f files ih =>
      intro u0 u h hm
      obtain ⟨fn, r⟩ := f
      cases r with
      | error e => exact Except.noConfusion h
      | ok js =>
          rcases ih _ u h hm with h1 | h1
          · exact js_foldl_keys m js s u0 h1
          · exact Or.inr h1

theorem rows_foldl_nodup (rows : List (Date × String × Int)) (title : String) :
    ∀ u : Usage, (alistKeys u).Nodup →
      (alistKeys (rows.foldl (fun u r => usageAdd u title r.1 r.2.2) u)).Nodup := by
  induction rows with
  | nil => intro u h; exact h
  | cons r rows ih =>
      intro u h
      simp only [List.foldl_cons]
      exact ih _ (alistKeys_nodup_insert u title _ h)

theorem pj_nodup (m : AList String String) (j : Journal) (u : Usage)
    (h : (alistKeys u).Nodup) : (alistKeys (processJournal m u j)).Nodup := by
  unfold processJournal
  cases hf : alistFind m j.issn with
  | none => exact h
  | some title => exact rows_foldl_nodup j.rows title u h

theorem js_foldl_nodup (m : AList String String) (js : List Journal) :
    ∀ u : Usage, (alistKeys u).Nodup →
      (alistKeys (js.foldl (processJournal m) u)).Nodup := by
  induction js with
  | nil => intro u h; exact h
  | cons j js ih =>
      intro u h
      simp only [List.foldl_cons]
      exact ih _ (pj_nodup m j u h)

theorem agg_nodup (m : AList String String) (files : List ReportFile) :
    ∀ (u0 u : Usage), get_usage_stats_from_wtcox_journals m files u0 = .ok u →
      (alistKeys u0).Nodup → (alistKeys u).Nodup := by
  induction files with
  | nil =>
      intro u0 u h hn
      injection h with h
      rw [← h]
      exact hn
  | cons f files ih =>
      intro u0 u h hn
      obtain ⟨fn, r⟩ := f
      cases r with
      | error e => exact Except.noConfusion h
      | ok js => exact ih _ u h (js_foldl_nodup m js u0 hn)

/-- C10: the not_found list returned by fill_in_missing_journals over the
orchestrator's configured month range never holds a duplicate title: the
zero fill performed on the first encounter of an absent title puts it into
the table, so every later identifier mapping to the same title finds it
present and does not append it again. -/
theorem not_found_no_duplicates (m : AList String String) (u : Usage) :
    ((fill_in_missing_journals m u datesMain).2).Nodup := by
  unfold fill_in_missing_journals
  exact go_nf_nodup datesMain (alistVals m) (by decide) u [] List.nodup_nil
    (fun x hx => absurd hx (List.not_mem_nil x))

/-- C1 counterexample: with the map sending one identifier to title A and no
usage at all, after both gap-filling passes over the configured range the
title A is in the usage table AND in not_found_titles, so it does not appear
in exactly one of the two. -/
theorem reachable_title_both_counterexample :
    (("A" ∈ alistKeys (fill_in_missing_journals [("1111-2222", "A")]
          (fill_in_missing_dates [] datesMain) datesMain).1) ∧
      ("A" ∈ (fill_in_missing_journals [("1111-2222", "A")]
          (fill_in_missing_dates [] datesMain) datesMain).2)) ∧
    ¬ ((("A" ∈ alistKeys (fill_in_missing_journals [("1111-2222", "A")]
            (fill_in_missing_dates [] datesMain) datesMain).1) ∧
        ("A" ∉ (fill_in_missing_journals [("1111-2222", "A")]
            (fill_in_missing_dates [] datesMain) datesMain).2)) ∨
       (("A" ∉ alistKeys (fill_in_missing_journals [("1111-2222", "A")]
            (fill_in_missing_dates [] datesMain) datesMain).1) ∧
        ("A" ∈ (fill_in_missing_journals [("1111-2222", "A")]
            (fill_in_missing_dates [] datesMain) datesMain).2))) := by
  decide

/-- C1 (amended): after both gap-filling passes over a nonempty month range,
every title reachable via the identifier map is present in the final usage
table, and it is in not_found_titles precisely when it had no entry in the
usage table before gap filling; the exactly-one property holds between the
pre-gap-fill usage table and the not_found list. -/
theorem reachable_title_exactly_one (m : AList String String) (u : Usage)
    (dates : List Date) (hd : dates ≠ []) (t : String) (ht : t ∈ alistVals m) :
    t ∈ alistKeys (fill_in_missing_journals m (fill_in_missing_dates u dates) dates).1 ∧
    (t ∈ (fill_in_missing_journals m (fill_in_missing_dates u dates) dates).2 ↔
      t ∉ alistKeys u) := by
  unfold fill_in_missing_journals
  refine ⟨go_keys_of_mem dates (alistVals m) t hd _ _ ht, ?_, ?_⟩
  · intro hnf hku
    have hkf : t ∈ alistKeys (fill_in_missing_dates u dates) := by
      rw [keys_fill_in_missing_dates]
      exact hku
    have hnil := (go_nf_iff_of_mem_keys dates (alistVals m) t _ [] hkf).mp hnf
    cases hnil
  · intro hku
    rcases go_mem_or_nf dates (alistVals m) t (fill_in_missing_dates u dates) [] ht with h1 | h1
    · rw [keys_fill_in_missing_dates] at h1
      exact absurd h1 hku
    · exact h1

/-- Witness for reachable_title_exactly_one: one mapped title, empty table,
one month: the title lands in the table and in not_found. -/
theorem reachable_title_exactly_one_witness :
    "A" ∈ alistKeys (fill_in_missing_journals [("1111-2222", "A")]
        (fill_in_missing_dates [] [⟨2020, 1, 1⟩]) [⟨2020, 1, 1⟩]).1 ∧
    ("A" ∈ (fill_in_missing_journals [("1111-2222", "A")]
        (fill_in_missing_dates [] [⟨2020, 1, 1⟩]) [⟨2020, 1, 1⟩]).2 ↔
      "A" ∉ alistKeys ([] : Usage)) :=
  reachable_title_exactly_one [("1111-2222", "A")] [] [⟨2020, 1, 1⟩]
    (by decide) "A" (by decide)

/-- C2 counterexample: a report observation dated January 2018 lies outside
the configured 2015-2017 range; it enters the aggregated table, survives
both gap-filling passes, and so the final month set of its title is not
exactly the configured range. -/
theorem months_outside_range_counterexample :
    get_usage_stats_from_wtcox_journals [("1111-2222", "A")]
        [("r.tsv", Except.ok [⟨"1111-2222", [(⟨2018, 1, 1⟩, "FT", 5)]⟩])] []
      = Except.ok [("A", [(⟨2018, 1, 1⟩, 5)])] ∧
    (lookupVal (fill_in_missing_journals [("1111-2222", "A")]
        (fill_in_missing_dates [("A", [(⟨2018, 1, 1⟩, 5)])] datesMain)
        datesMain).1 "A" ⟨2018, 1, 1⟩).isSome = true ∧
    (⟨2018, 1, 1⟩ : Date) ∉ datesMain :=
  ⟨rfl, by decide, by decide⟩

/-- C2 (amended): for every title of the final usage table every month of
the configured range is present (no gaps); a month outside the range is
present only when that title already had it in the table before gap
filling (an out-of-range observation in the source reports). -/
theorem months_cover_range (m : AList String String) (u : Usage)
    (dates : List Date) (t : String)
    (ht : t ∈ alistKeys
      (fill_in_missing_journals m (fill_in_missing_dates u dates) dates).1) :
    (∀ d ∈ dates,
      (lookupVal (fill_in_missing_journals m
        (fill_in_missing_dates u dates) dates).1 t d).isSome = true) ∧
    (∀ d, (lookupVal (fill_in_missing_journals m
        (fill_in_missing_dates u dates) dates).1 t d).isSome = true →
      d ∈ dates ∨ (lookupVal u t d).isSome = true) := by
  constructor
  · intro d hdm
    unfold fill_in_missing_journals at ht ⊢
    refine go_month_inv dates (alistVals m) (fill_in_missing_dates u dates) [] ?_ t ht d hdm
    intro x hx d' hd'
    rw [keys_fill_in_missing_dates] at hx
    have hsome : (alistFind u x).isSome = true :=
      (alistContains_iff_mem_keys u x).mpr hx
    obtain ⟨inner, hf⟩ := Option.isSome_iff_exists.mp hsome
    have hrw : lookupVal (fill_in_missing_dates u dates) x d' =
        alistFind (fillDates inner dates) d' := by
      rw [lookupVal, find_fill_in_missing_dates, hf]
      rfl
    rw [hrw]
    exact fillDates_present dates inner d' hd'
  · intro d hsome
    unfold fill_in_missing_journals at hsome
    rcases go_month_rev dates (alistVals m) t d (fill_in_missing_dates u dates) [] hsome
      with h1 | h1
    · cases hf : alistFind u t with
      | none =>
          have hnone : lookupVal (fill_in_missing_dates u dates) t d = none := by
            rw [lookupVal, find_fill_in_missing_dates, hf]
            rfl
          rw [hnone] at h1
          simp at h1
      | some inner =>
          have hrw : lookupVal (fill_in_missing_dates u dates) t d =
              alistFind (fillDates inner dates) d := by
            rw [lookupVal, find_fill_in_missing_dates, hf]
            rfl
          rw [hrw] at h1
          obtain ⟨c, hc⟩ := Option.isSome_iff_exists.mp h1
          rcases fillDates_new dates inner d c hc with h2 | ⟨hm2, _, _⟩
          · refine Or.inr ?_
            rw [lookupVal_of_find u t d inner hf, h2]
            rfl
          · exact Or.inl hm2
    · exact Or.inl h1

/-- Witness for months_cover_range on one mapped title, empty table and one
configured month. -/
theorem months_cover_range_witness :
    (∀ d ∈ [(⟨2020, 1, 1⟩ : Date)],
      (lookupVal (fill_in_missing_journals [("1111-2222", "A")]
        (fill_in_missing_dates [] [⟨2020, 1, 1⟩]) [⟨2020, 1, 1⟩]).1 "A" d).isSome = true) ∧
    (∀ d, (lookupVal (fill_in_missing_journals [("1111-2222", "A")]
        (fill_in_missing_dates [] [⟨2020, 1, 1⟩]) [⟨2020, 1, 1⟩]).1 "A" d).isSome = true →
      d ∈ [(⟨2020, 1, 1⟩ : Date)] ∨ (lookupVal ([] : Usage) "A" d).isSome = true) :=
  months_cover_range [("1111-2222", "A")] [] [⟨2020, 1, 1⟩] "A" (by decide)

/-- C3: the orchestrator's final assertion.  For every awaiting-fulfillment
override, subscription map and list of parseable report files, with the
configured month range, the number of distinct canonical titles among the
map's values equals the number of keys of the final usage table. -/
theorem orchestrator_assert_holds (aw base : AList String String)
    (files : List ReportFile) (u : Usage)
    (hok : get_usage_stats_from_wtcox_journals
      (add_journals_awaiting_fulfillment aw base) files [] = .ok u) :
    (alistVals (add_journals_awaiting_fulfillment aw base)).dedup.length =
      (fill_in_missing_journals (add_journals_awaiting_fulfillment aw base)
        (fill_in_missing_dates u datesMain) datesMain).1.length := by
  have hdne : datesMain ≠ [] := by decide
  have hsub : ∀ s, s ∈ alistKeys u →
      s ∈ alistVals (add_journals_awaiting_fulfillment aw base) := by
    intro s hs
    rcases agg_keys (add_journals_awaiting_fulfillment aw base) files s [] u hok hs
      with h1 | h1
    · simp [alistKeys] at h1
    · exact h1
  have hnodu : (alistKeys u).Nodup :=
    agg_nodup (add_journals_awaiting_fulfillment aw base) files [] u hok
      (by simp [alistKeys])
  have hnodf : (alistKeys (fill_in_missing_journals
      (add_journals_awaiting_fulfillment aw base)
      (fill_in_missing_dates u datesMain) datesMain).1).Nodup := by
    unfold fill_in_missing_journals
    apply go_nodup_keys
    rw [keys_fill_in_missing_dates]
    exact hnodu
  have hiff : ∀ s, s ∈ alistKeys (fill_in_missing_journals
      (add_journals_awaiting_fulfillment aw base)
      (fill_in_missing_dates u datesMain) datesMain).1 ↔
      s ∈ alistVals (add_journals_awaiting_fulfillment aw base) := by
    intro s
    constructor
    · intro h
      unfold fill_in_missing_journals at h
      rcases go_keys_sub datesMain (alistVals (add_journals_awaiting_fulfillment aw base))
        s (fill_in_missing_dates u datesMain) [] h with h1 | h1
      · rw [keys_fill_in_missing_dates] at h1
        exact hsub s h1
      · exact h1
    · intro h
      exact go_keys_of_mem datesMain
        (alistVals (add_journals_awaiting_fulfillment aw base)) s hdne _ _ h
  have hfins : (alistKeys (fill_in_missing_journals
      (add_journals_awaiting_fulfillment aw base)
      (fill_in_missing_dates u datesMain) datesMain).1).toFinset =
      (alistVals (add_journals_awaiting_fulfillment aw base)).toFinset := by
    ext a
    simp only [List.mem_toFinset]
    exact hiff a
  calc (alistVals (add_journals_awaiting_fulfillment aw base)).dedup.length
      = (alistVals (add_journals_awaiting_fulfillment aw base)).toFinset.card :=
        (List.card_toFinset _).symm
    _ = (alistKeys (fill_in_missing_journals
          (add_journals_awaiting_fulfillment aw base)
          (fill_in_missing_dates u datesMain) datesMain).1).toFinset.card := by
        rw [hfins]
    _ = (alistKeys (fill_in_missing_journals
          (add_journals_awaiting_fulfillment aw base)
          (fill_in_missing_dates u datesMain) datesMain).1).length :=
        List.toFinset_card_of_nodup hnodf
    _ = (fill_in_missing_journals (add_journals_awaiting_fulfillment aw base)
          (fill_in_missing_dates u datesMain) datesMain).1.length := by
        simp [alistKeys]

/-- Witness for orchestrator_assert_holds: one subscription, no report
files. -/
theorem orchestrator_assert_holds_witness :
    (alistVals (add_journals_awaiting_fulfillment [] [("1111-2222", "A")])).dedup.length =
      (fill_in_missing_journals (add_journals_awaiting_fulfillment [] [("1111-2222", "A")])
        (fill_in_missing_dates [] datesMain) datesMain).1.length :=
  orchestrator_assert_holds [] [("1111-2222", "A")] [] [] rfl

/-! Lemmas about the subscription loader's ignored publishers structure. -/

theorem procRow_length (ig sp : List String) (st : LoaderState) (x : List String)
    (st' : LoaderState) (h : procRow ig sp st x = some st') : 12 < x.length := by
  by_contra hlen
  unfold procRow at h
  rw [if_neg hlen] at h
  exact Option.noConfusion h

theorem procRow_no_usage_not_ignored (ig sp : List String) (st : LoaderState)
    (x : List String) (st' : LoaderState) (h : procRow ig sp st x = some st')
    (hig : rowPub x ∉ ig) :
    st'.no_usage = alistInsert st.no_usage (rowPub x) (rowTitle x) := by
  have hlen := procRow_length ig sp st x st' h
  unfold rowPub at hig ⊢
  unfold rowTitle
  unfold procRow at h
  rw [if_pos hlen] at h
  dsimp only at h
  rw [if_pos hig] at h
  split at h
  · injection h with h
    rw [← h]
  · split at h
    · injection h with h
      rw [← h]
    · injection h with h
      rw [← h]

theorem procRow_no_usage_ignored (ig sp : List String) (st : LoaderState)
    (x : List String) (st' : LoaderState) (h : procRow ig sp st x = some st')
    (hig : rowPub x ∈ ig) : st'.no_usage = st.no_usage := by
  have hlen := procRow_length ig sp st x st' h
  unfold rowPub at hig
  unfold procRow at h
  rw [if_pos hlen] at h
  dsimp only at h
  have hnot : ¬ (x.getD 12 "" ∉ ig) := fun hn => hn hig
  rw [if_neg hnot] at h
  split at h
  · injection h with h
    rw [← h]
  · split at h
    · injection h with h
      rw [← h]
    · injection h with h
      rw [← h]

theorem procRow_no_usage_frame (ig sp : List String) (st : LoaderState)
    (x : List String) (st' : LoaderState) (h : procRow ig sp st x = some st')
    (q : String) (hq : q ≠ rowPub x) :
    alistFind st'.no_usage q = alistFind st.no_usage q := by
  by_cases hig : rowPub x ∈ ig
  · rw [procRow_no_usage_ignored ig sp st x st' h hig]
  · rw [procRow_no_usage_not_ignored ig sp st x st' h hig]
    exact alistFind_insert_ne _ _ _ _ (fun he => hq he.symm)

theorem lastTitleFor_isSome (q : String) (rows : List (List String))
    (r : List String) (hr : r ∈ rows) (hq : rowPub r = q) :
    (lastTitleFor q rows).isSome = true := by
  induction rows with
  | nil => cases hr
  | cons x xs ih =>
      unfold lastTitleFor
      cases hl : lastTitleFor q xs with
      | some ttl => rfl
      | none =>
          rcases List.mem_cons.mp hr with rfl | hm
          · simp [hq]
          · have hx := ih hm
            rw [hl] at hx
            simp at hx

theorem loadRows_no_usage_lastTitle (ig sp : List String) (rows : List (List String)) :
    ∀ (st0 st : LoaderState), loadRows ig sp rows st0 = some st →
      ∀ q, q ∉ ig →
        alistFind st.no_usage q =
          (match lastTitleFor q rows with
           | some ttl => some ttl
           | none => alistFind st0.no_usage q) := by
  induction rows with
  | nil =>
      intro st0 st h q _
      injection h with h
      rw [← h]
      rfl
  | cons x xs ih =>
      intro st0 st h q hq
      cases hp : procRow ig sp st0 x with
      | none =>
          unfold loadRows at h
          rw [hp] at h
          exact Option.noConfusion h
      | some st1 =>
          have h2 : loadRows ig sp xs st1 = some st := by
            unfold loadRows at h
            rw [hp] at h
            exact h
          have hxs := ih st1 st h2 q hq
          unfold lastTitleFor
          cases hl : lastTitleFor q xs with
          | some ttl =>
              rw [hl] at hxs
              exact hxs
          | none =>
              rw [hl] at hxs
              have hxs1 : alistFind st.no_usage q = alistFind st1.no_usage q := hxs
              by_cases hpq : rowPub x = q
              · rw [if_pos hpq]
                have hig2 : rowPub x ∉ ig := by
                  rw [hpq]
                  exact hq
                have hfin : alistFind st1.no_usage q = some (rowTitle x) := by
                  rw [procRow_no_usage_not_ignored ig sp st0 x st1 hp hig2, hpq]
                  exact alistFind_insert_self _ q _
                show alistFind st.no_usage q = some (rowTitle x)
                rw [hxs1, hfin]
              · rw [if_neg hpq]
                show alistFind st.no_usage q = alistFind st0.no_usage q
                rw [hxs1]
                exact procRow_no_usage_frame ig sp st0 x st1 hp q
                  (fun he => hpq he.symm)

/-- C5 counterexample: two well formed rows share the publisher P (not in
the ignore set) with titles A then B; the loader's ignored-publishers dict
holds only (P, B) — the first row's (P, A) pair is overwritten, so it is not
recorded in the output structure. -/
theorem ignored_publishers_pair_counterexample :
    get_journals_and_no_issns_from_wtcox
        [["A", "Online", "", "", "", "", "", "", "", "", "", "1111-2222", "P"],
         ["B", "Online", "", "", "", "", "", "", "", "", "", "3333-4444", "P"]] [] []
      = some { issn_title := [("1111-2222", "A"), ("3333-4444", "B")],
               no_issn := [], no_usage := [("P", "B")] } ∧
    ("P", "A") ∉ ([("P", "B")] : AList String String) := by
  exact ⟨by decide, by decide⟩

/-- C5 (amended): for every subscription row whose publisher is not in the
ignore set, the publisher is recorded in the ignored-publishers structure
regardless of any other exclusion, but mapped to the title of the last row
with that publisher — a later row with the same publisher overwrites the
recorded title. -/
theorem ignored_publishers_records_last (ig sp : List String)
    (rows : List (List String)) (st0 st : LoaderState)
    (h : loadRows ig sp rows st0 = some st) (r : List String) (hr : r ∈ rows)
    (hig : rowPub r ∉ ig) :
    ∃ ttl, lastTitleFor (rowPub r) rows = some ttl ∧
      alistFind st.no_usage (rowPub r) = some ttl := by
  have hmain := loadRows_no_usage_lastTitle ig sp rows st0 st h (rowPub r) hig
  have hs : (lastTitleFor (rowPub r) rows).isSome = true :=
    lastTitleFor_isSome (rowPub r) rows r hr rfl
  obtain ⟨ttl, httl⟩ := Option.isSome_iff_exists.mp hs
  rw [httl] at hmain
  exact ⟨ttl, httl, hmain⟩

/-- Witness for ignored_publishers_records_last on the two row input of the
counterexample: publisher P is recorded with the later title B. -/
theorem ignored_publishers_records_last_witness :
    ∃ ttl, lastTitleFor (rowPub ["A", "Online", "", "", "", "", "", "", "", "", "", "1111-2222", "P"])
        [["A", "Online", "", "", "", "", "", "", "", "", "", "1111-2222", "P"],
         ["B", "Online", "", "", "", "", "", "", "", "", "", "3333-4444", "P"]] = some ttl ∧
      alistFind ({ issn_title := [("1111-2222", "A"), ("3333-4444", "B")],
                   no_issn := [], no_usage := [("P", "B")] } : LoaderState).no_usage
        (rowPub ["A", "Online", "", "", "", "", "", "", "", "", "", "1111-2222", "P"]) = some ttl :=
  ignored_publishers_records_last [] []
    [["A", "Online", "", "", "", "", "", "", "", "", "", "1111-2222", "P"],
     ["B", "Online", "", "", "", "", "", "", "", "", "", "3333-4444", "P"]]
    ⟨[], [], []⟩
    { issn_title := [("1111-2222", "A"), ("3333-4444", "B")],
      no_issn := [], no_usage := [("P", "B")] }
    (by decide)
    ["A", "Online", "", "", "", "", "", "", "", "", "", "1111-2222", "P"]
    (by decide) (by decide)

end IndivSubs
